import Mathlib

/-!
Verification development for the rusher load-generation engine.

Each definition is a shallow embedding of the corresponding item in the
repository sources (src/src/executor.rs, src/src/runner.rs,
src/src/tracing/task_event/metrics.rs, src/src/tracing/task_event.rs,
src/src/logical.rs).  Machine floats (f64) are modelled as rationals,
Rust Duration values as nanosecond counts (Nat), and panics as
Option/none results.  Concurrency is modelled by explicit schedules or
oracles: a schedule lists, in order, the atomic loop steps the runtime
interleaved; an oracle records how many loop-condition checks the clock
permitted in each pacing window.
-/

namespace Rusher

/-! ## Metrics (src/src/tracing/task_event/metrics.rs) -/

/-- State of `Histogram`: `inner: Mutex<(Option<TDigest>, Vec<OrderedFloat<f64>>, f64)>`.
The external `tdigest::TDigest` (not part of these sources) is modelled as the
list of values it holds; `merge_unsorted` takes `&self` and returns the merged
digest as a new value (the immutable `let tdigest = TDigest::default()` in
`observe`'s else branch rules out `&mut self`, and the later
`inner.0 = Some(tdigest)` rules out a by-value `self`). -/
structure Histogram where
  digest : Option (List ℚ)
  buffer : List ℚ
  sum : ℚ

/-- `Histogram::new` -/
def Histogram.new : Histogram :=
  { digest := none, buffer := [], sum := 0 }

/-- `Histogram::observe`: push the value on the buffer; once its length
reaches 4096, take the buffer (emptying it via `mem::take`) and call
`merge_unsorted` - whose returned digest is DISCARDED in both branches:
with an existing digest nothing changes, without one the empty
`TDigest::default()` is stored; then add the value to the running sum.
In the model both flush branches therefore keep exactly the old digest
contents, `some (h.digest.getD [])`. -/
def Histogram.observe (h : Histogram) (v : ℚ) : Histogram :=
  if 4096 ≤ (h.buffer ++ [v]).length then
    { digest := some (h.digest.getD []), buffer := [], sum := h.sum + v }
  else
    { digest := h.digest, buffer := h.buffer ++ [v], sum := h.sum + v }

/-- Folding `observe` over a list of observed values. -/
def Histogram.observeAll (h : Histogram) (vs : List ℚ) : Histogram :=
  vs.foldl Histogram.observe h

/-- `Histogram::get_sum` -/
def Histogram.get_sum (h : Histogram) : ℚ :=
  h.sum

/-- Insertion step of the buffer sort (`sort_unstable`). -/
def insertSorted (x : ℚ) : List ℚ → List ℚ
  | [] => [x]
  | y :: ys => if x ≤ y then x :: y :: ys else y :: insertSorted x ys

/-- The in-place `sort_unstable` of the buffer, modelled functionally. -/
def sortBuffer : List ℚ → List ℚ
  | [] => []
  | x :: xs => insertSorted x (sortBuffer xs)

/-- Modelled from the spec: `tdigest::TDigest::estimate_quantile` is external
to these sources; it is a total streaming percentile estimate over the merged
values, modelled here as indexing into the sorted merged values. -/
def estimateQuantile (d : List ℚ) (u l : Nat) : ℚ :=
  (sortBuffer d).getD (d.length * u / l) 0

/-- `Histogram::get_percentile`: with a digest present, estimate the quantile
`u / l`; otherwise index the sorted buffer at `(len * u) / l`.  The Rust code
indexes with `lock.1[index]`, which panics when out of bounds; the panic is
modelled as `none` (`List.get?` out of range). -/
def Histogram.get_percentile (h : Histogram) (u l : Nat) : Option ℚ :=
  match h.digest with
  | some d => some (estimateQuantile d u l)
  | none => (sortBuffer h.buffer).get? (h.buffer.length * u / l)

/-- `Histogram::get_percentiles`: (p50, p90, p95, p99). -/
def Histogram.get_percentiles (h : Histogram) : Option (ℚ × ℚ × ℚ × ℚ) := do
  let a ← h.get_percentile 1 2
  let b ← h.get_percentile 9 10
  let c ← h.get_percentile 95 100
  let d ← h.get_percentile 99 100
  pure (a, b, c, d)

/-- `Value` (src/src/tracing/task_event.rs).  `Float(OrderedFloat<f64>)` is a
rational, `Duration` a nanosecond count. -/
inductive Value where
  | string (s : String)
  | number (i : Int)
  | unsignedNumber (u : Nat)
  | float (f : ℚ)
  | duration (nanos : Nat)

/-- `Metric` storage (metrics.rs): counters, gauges, histograms.
`GaugeDuration` stores the pair (seconds gauge, subsecond-nanos gauge). -/
inductive Metric where
  | counter (value : Nat)
  | gaugeF64 (value : ℚ)
  | gaugeI64 (value : Int)
  | gaugeU64 (value : Nat)
  | gaugeDuration (sec : Nat) (nanos : Nat)
  | histogram (h : Histogram)
  | duration (h : Histogram)

/-- `Metric::update`: each arm of the Rust match; the final arm `_ => {}`
leaves the metric unchanged. -/
def Metric.update : Metric → Value → Metric
  | .counter x, .unsignedNumber val => .counter (x + val)
  | .gaugeF64 _, .float f => .gaugeF64 f
  | .gaugeI64 _, .number f => .gaugeI64 f
  | .gaugeU64 _, .unsignedNumber f => .gaugeU64 f
  | .gaugeDuration _ _, .duration f => .gaugeDuration (f / 1000000000) (f % 1000000000)
  | .histogram x, .float val => .histogram (x.observe val)
  | .duration x, .duration f => .duration (x.observe (f : ℚ))
  | m, _ => m

/-- Whether a value variant matches the metric's storage type: exactly the
pairs named by the non-default arms of `Metric::update`. -/
def Metric.matchesStorage : Metric → Value → Bool
  | .counter _, .unsignedNumber _ => true
  | .gaugeF64 _, .float _ => true
  | .gaugeI64 _, .number _ => true
  | .gaugeU64 _, .unsignedNumber _ => true
  | .gaugeDuration _ _, .duration _ => true
  | .histogram _, .float _ => true
  | .duration _, .duration _ => true
  | _, _ => false

/-- `MetricValue` (metrics.rs). -/
inductive MetricValue where
  | counter (x : Nat)
  | gaugeF64 (x : ℚ)
  | gaugeI64 (x : Int)
  | gaugeU64 (x : Nat)
  | gaugeDuration (sec nanos : Nat)
  | histogram (p : (ℚ × ℚ × ℚ × ℚ) × ℚ)
  | durationHistogram (p : (Nat × Nat × Nat × Nat) × Nat)

/-- The `f64 -> u64` conversion in `Metric::value` for duration histograms
(`to_int_unchecked`, with NaN mapped to 0); rationals have no NaN, negative
values floor to 0 through `Int.toNat`. -/
def nanosOfRat (q : ℚ) : Nat :=
  q.floor.toNat

/-- `Metric::value`: the histogram arms call `get_percentiles`, which panics
(`none`) when nothing has been observed. -/
def Metric.value : Metric → Option MetricValue
  | .counter x => some (.counter x)
  | .gaugeF64 x => some (.gaugeF64 x)
  | .gaugeI64 x => some (.gaugeI64 x)
  | .gaugeU64 x => some (.gaugeU64 x)
  | .gaugeDuration s n => some (.gaugeDuration s n)
  | .histogram x =>
    (x.get_percentiles).map fun p => .histogram (p, x.get_sum)
  | .duration x =>
    (x.get_percentiles).map fun p =>
      .durationHistogram
        ((nanosOfRat p.1, nanosOfRat p.2.1, nanosOfRat p.2.2.1, nanosOfRat p.2.2.2),
          nanosOfRat x.get_sum)

/-! ## Outcome channel and error classification

The error enum lives in `crate::error`, which is not among these sources; the
runner, user trait and the bundled example only use it. -/

/-- Modelled from the spec: `crate::error::Error` is missing from the sources;
§7 of the spec and examples/simple.rs give its two outcome-classifying
variants, `GenericError` and `TerminationError(reason)`. -/
inductive Error where
  | genericError
  | terminationError

/-- `UserResult = Result<(), crate::error::Error>`. -/
abbrev UserResult := Except Error Unit

/-- `Result::is_err` on a `UserResult`. -/
def isErrResult : UserResult → Bool
  | .error _ => true
  | .ok _ => false

/-! ## Scenario runner (src/src/runner.rs) -/

/-- `has_user_terminated`: drain the merged outcome channel in batches
(`recv_many`, up to 128 at a time); return true as soon as a batch contains
any `Err` result - the error's variant is never inspected - and false when
the channel closes. -/
def has_user_terminated : List (List UserResult) → Bool
  | [] => false
  | batch :: rest =>
    if batch.any isErrResult then true else has_user_terminated rest

/-- `Runner::run`, scenario sequencing only: each scenario yields the batches
its outcome channel delivers; a scenario whose drain reports termination
cancels the scope and breaks, so later scenarios never start.  Returns how
many scenarios were run. -/
def runnerScenariosExecuted : List (List (List UserResult)) → Nat
  | [] => 0
  | s :: rest =>
    if has_user_terminated s then 1 else 1 + runnerScenariosExecuted rest

/-! ## SharedIterations executor (src/src/executor.rs, lines 199-255)

Interleaving model: each schedule entry is one pass through a user's loop
body, tagged with the user index and whether `Instant::now() < end_time`
had already failed at that poll. -/

/-- The observable state of a running `SharedIterations::execute` task:
the shared atomic counter, the number of outcomes sent on the channel and,
per user, whether that user's loop has exited. -/
structure SharedState where
  counter : Nat
  sent : Nat
  stopped : List Bool

/-- Initial state of the task: `AtomicUsize::new(iterations)` - the counter
named `iterations_completed` starts at `iterations` in the source - no
outcome sent, every user's loop live. -/
def sharedInit (iterations users : Nat) : SharedState :=
  { counter := iterations, sent := 0, stopped := List.replicate users false }

/-- One pass of a user's loop: if the deadline has passed the loop exits;
otherwise `fetch_add(1, Relaxed)` returns the prior counter value, and the
user either exits (prior ≥ iterations) or runs one iteration and sends its
outcome. -/
def sharedStep (iterations : Nat) (st : SharedState) (ev : Nat × Bool) : SharedState :=
  match st.stopped[ev.1]? with
  | none => st
  | some true => st
  | some false =>
    if ev.2 then
      { st with stopped := st.stopped.set ev.1 true }
    else if iterations ≤ st.counter then
      { st with counter := st.counter + 1, stopped := st.stopped.set ev.1 true }
    else
      { st with counter := st.counter + 1, sent := st.sent + 1 }

/-- Run the `SharedIterations` task under a given interleaving. -/
def sharedRun (iterations users : Nat) (sched : List (Nat × Bool)) : SharedState :=
  sched.foldl (sharedStep iterations) (sharedInit iterations users)

/-! ## PerUserIteration executor (src/src/executor.rs, lines 257-302) -/

/-- One user's driver: `for _ in 0..iterations { tx.send(user_call(user.call()).await) }`;
the k-th iteration's outcome is `call k`. -/
def perUserDriver (call : Nat → UserResult) (iterations : Nat) : List UserResult :=
  (List.range iterations).map call

/-- All outcomes sent on the channel by a `PerUserIteration` run, one driver
per user; the channel merge permutes but preserves the multiset, so counts
are schedule-independent. -/
def perUserAllOutcomes (calls : List (Nat → UserResult)) (iterations : Nat) : List UserResult :=
  (calls.map fun c => perUserDriver c iterations).flatten

/-! ## RampingUser executor (src/src/executor.rs, lines 304-374) -/

/-- Pool size after one stage with the given target:
`if len < target { users.extend(build_users(.., target - len)) }`. -/
def rampingUserStage (pool target : Nat) : Nat :=
  if pool < target then pool + (target - pool) else pool

/-- Number of users built before a stage starts. -/
def rampingUserBuilt (pool target : Nat) : Nat :=
  if pool < target then target - pool else 0

/-- The sequence of pool sizes observed across a run: `pre_allocate` users are
built first, then each stage `(duration, target)` tops the pool up. -/
def rampingUserPools (pre : Nat) : List (Nat × Nat) → List Nat
  | [] => [pre]
  | s :: rest => pre :: rampingUserPools (rampingUserStage pre s.2) rest

/-- Pool size when the last stage has finished. -/
def rampingUserFinal (pre : Nat) (stages : List (Nat × Nat)) : Nat :=
  stages.foldl (fun p s => rampingUserStage p s.2) pre

/-! ## RampingArrivalRate executor (src/src/executor.rs, lines 376-474)

Clock oracle: for each stage, the list of pacing windows the outer loop
entered; for each window, how many times the inner loop's compound condition
`now < next_rate_check_time && now < end_time && current_rate < rate`
was allowed to pass by the clock (its `current_rate < rate` conjunct is
enforced separately). -/

/-- `Rate(count, time_unit)` (src/src/logical.rs); the window length in
nanoseconds. -/
structure Rate where
  count : Nat
  timeUnit : Nat

/-- The configuration fields of `RampingArrivalRate`. -/
structure RampingArrivalRateState where
  preAllocate : Nat
  stages : List (Rate × Nat)
  maxUsers : Nat

/-- `RampingArrivalRate::new`. -/
def RampingArrivalRate.new (pre : Nat) (stages : List (Rate × Nat)) (maxU : Nat) :
    RampingArrivalRateState :=
  { preAllocate := pre, stages := stages, maxUsers := maxU }

/-- One pacing window over a pool of `pool` users. The inner loop walks
`users.iter().cycle().filter_map(|x| x.try_lock().ok())` and calls
`.next().unwrap()` on it: over an empty pool the cyclic iterator is exhausted
at once, `next()` is `None`, and the unwrap panics (`none`).  Otherwise the
clock permits `min rate cap` starts; after `scope.collect()` the pool grows by
`rate - current_rate` users whenever the window under-achieved and
`users.len() < max_users` - the amount is not clamped to `max_users`. -/
def runWindow (maxUsers rate pool cap : Nat) : Option Nat :=
  if pool = 0 ∧ 0 < min rate cap then none
  else if min rate cap < rate ∧ pool < maxUsers then some (pool + (rate - min rate cap))
  else some pool

/-- The windows of one stage, threading the pool size; a panic propagates. -/
def runStage (maxUsers rate : Nat) : Nat → List Nat → Option Nat
  | pool, [] => some pool
  | pool, cap :: rest =>
    match runWindow maxUsers rate pool cap with
    | none => none
    | some p => runStage maxUsers rate p rest

/-- The stages paired with their window oracles, threading the pool size. -/
def runStages (maxUsers : Nat) : Nat → List ((Rate × Nat) × List Nat) → Option Nat
  | pool, [] => some pool
  | pool, s :: rest =>
    match runStage maxUsers s.1.1.count pool s.2 with
    | none => none
    | some p => runStages maxUsers p rest

/-- `RampingArrivalRate::execute`, pool-size and panic behavior: build
`pre_allocate` users, then run every stage against the clock oracle.
Returns the final pool size, or `none` if the task panicked. -/
def rampingArrivalRateRun (st : RampingArrivalRateState) (oracle : List (List Nat)) :
    Option Nat :=
  runStages st.maxUsers st.preAllocate (st.stages.zip oracle)

/-! ## DataExecutor (src/src/executor.rs, lines 24-117 and src/src/logical.rs) -/

/-- `logical::Executor` (src/src/logical.rs); durations in nanoseconds. -/
inductive LogicalExecutor where
  | once
  | constant (users : Nat) (duration : Nat)
  | shared (users iterations : Nat) (duration : Nat)
  | perUser (users iterations : Nat)
  | constantArrivalRate (preAllocateUsers : Nat) (rate : Rate) (maxUsers : Nat) (duration : Nat)
  | rampingUser (preAllocateUsers : Nat) (stages : List (Nat × Nat))
  | rampingArrivalRate (preAllocateUsers : Nat) (maxUsers : Nat) (stages : List (Rate × Nat))

/-- `DataExecutor`: the `ConstantArrivalRate` and `RampingArrivalRate`
variants both hold a `RampingArrivalRate` value (the source comment reads
"ConstantArrivalRate is RampingArrivalRate with 1 stage"). -/
inductive DataExecutor where
  | once
  | constant (users : Nat) (duration : Nat)
  | shared (users iterations duration : Nat)
  | perUser (users iterations : Nat)
  | rampingUser (preAllocate : Nat) (stages : List (Nat × Nat))
  | constantArrivalRate (st : RampingArrivalRateState)
  | rampingArrivalRate (st : RampingArrivalRateState)

/-- `DataExecutor::new`: the `ConstantArrivalRate` configuration constructs
`RampingArrivalRate::new(datastore, user_builder, pre_allocate_users,
vec![(rate, duration)], max_users)`. -/
def dataExecutorNew : LogicalExecutor → DataExecutor
  | .once => .once
  | .constant u d => .constant u d
  | .shared u i d => .shared u i d
  | .perUser u i => .perUser u i
  | .constantArrivalRate p r m d => .constantArrivalRate (RampingArrivalRate.new p [(r, d)] m)
  | .rampingUser p s => .rampingUser p s
  | .rampingArrivalRate p m s => .rampingArrivalRate (RampingArrivalRate.new p s m)

/-- The user-pool trajectory semantics of `DataExecutor::execute`: the final
pool size of the spawned task (`none` on panic).  The fixed-pool executors
never change `users.len()`; both arrival-rate variants dispatch to the same
`RampingArrivalRate::execute`. -/
def DataExecutor.finalPool : DataExecutor → List (List Nat) → Option Nat
  | .once, _ => some 1
  | .constant u _, _ => some u
  | .shared u _ _, _ => some u
  | .perUser u _, _ => some u
  | .rampingUser p s, _ => some (rampingUserFinal p s)
  | .constantArrivalRate st, oracle => rampingArrivalRateRun st oracle
  | .rampingArrivalRate st, oracle => rampingArrivalRateRun st oracle

/-! ## Helper lemmas -/

lemma sharedStep_aux (iterations : Nat) (st : SharedState) (ev : Nat × Bool)
    (h : iterations ≤ st.counter) :
    (sharedStep iterations st ev).sent = st.sent ∧
      iterations ≤ (sharedStep iterations st ev).counter := by
  cases hget : st.stopped[ev.1]? with
  | none => simp [sharedStep, hget, h]
  | some b =>
    cases b with
    | true => simp [sharedStep, hget, h]
    | false =>
      by_cases hdl : ev.2
      · simp [sharedStep, hget, hdl, h]
      · simp [sharedStep, hget, hdl, h]
        omega

lemma sharedRun_aux (iterations : Nat) (sched : List (Nat × Bool)) :
    ∀ st : SharedState, iterations ≤ st.counter →
      (sched.foldl (sharedStep iterations) st).sent = st.sent ∧
        iterations ≤ (sched.foldl (sharedStep iterations) st).counter := by
  induction sched with
  | nil => exact fun st h => ⟨rfl, h⟩
  | cons ev rest ih =>
    intro st h
    have hstep := sharedStep_aux iterations st ev h
    have := ih (sharedStep iterations st ev) hstep.2
    rw [List.foldl_cons]
    exact ⟨this.1.trans hstep.1, this.2⟩

lemma rampingUserStage_eq_max (pool target : Nat) :
    rampingUserStage pool target = max pool target := by
  unfold rampingUserStage; split_ifs <;> omega

lemma le_rampingUserStage (pool target : Nat) : pool ≤ rampingUserStage pool target := by
  rw [rampingUserStage_eq_max]; exact le_max_left _ _

lemma chain'_rampingUserPools :
    ∀ (stages : List (Nat × Nat)) (pre : Nat),
      List.Chain' (· ≤ ·) (rampingUserPools pre stages)
  | [], _ => by simp [rampingUserPools]
  | s :: rest, pre => by
    have ih := chain'_rampingUserPools rest (rampingUserStage pre s.2)
    cases rest with
    | nil =>
      simp [rampingUserPools, List.chain'_cons, le_rampingUserStage]
    | cons t ts =>
      rw [rampingUserPools, rampingUserPools]
      rw [rampingUserPools] at ih
      exact List.chain'_cons.mpr ⟨le_rampingUserStage _ _, ih⟩

lemma rampingUserFinal_eq (pre : Nat) (stages : List (Nat × Nat)) :
    rampingUserFinal pre stages = max pre (stages.foldl (fun a s => max a s.2) 0) := by
  have h1 : ∀ (l : List (Nat × Nat)) (x : Nat),
      l.foldl (fun p s => rampingUserStage p s.2) x = l.foldl (fun p s => max p s.2) x := by
    intro l
    induction l with
    | nil => intro x; rfl
    | cons a l ih => intro x; simp only [List.foldl_cons, rampingUserStage_eq_max, ih]
  have h2 : ∀ (l : List (Nat × Nat)) (a b : Nat),
      l.foldl (fun p s => max p s.2) (max a b) = max a (l.foldl (fun p s => max p s.2) b) := by
    intro l
    induction l with
    | nil => intro a b; rfl
    | cons c l ih => intro a b; rw [List.foldl_cons, List.foldl_cons, max_assoc, ih]
  unfold rampingUserFinal
  rw [h1]
  have h3 := h2 stages pre 0
  rw [Nat.max_zero] at h3
  exact h3

lemma observeAll_inv (vs : List ℚ) :
    ∀ h : Histogram, h.buffer.length < 4096 →
      (h.observeAll vs).sum = h.sum + vs.sum ∧
      (h.observeAll vs).buffer.length = (h.buffer.length + vs.length) % 4096 ∧
      (h.observeAll vs).digest.getD [] = h.digest.getD [] ∧
      (h.observeAll vs).buffer.length < 4096 := by
  induction vs with
  | nil =>
    intro h hlt
    refine ⟨by simp [Histogram.observeAll], ?_, by simp [Histogram.observeAll], hlt⟩
    simp [Histogram.observeAll, Nat.mod_eq_of_lt hlt]
  | cons v vs ih =>
    intro h hlt
    have hobs : Histogram.observeAll h (v :: vs) = Histogram.observeAll (h.observe v) vs := rfl
    by_cases hm : 4096 ≤ h.buffer.length + 1
    · have hv : h.observe v =
          { digest := some (h.digest.getD []), buffer := [], sum := h.sum + v } := by
        unfold Histogram.observe
        rw [if_pos (by simpa using hm)]
      obtain ⟨s1, s2, s3, s4⟩ := ih (h.observe v) (by rw [hv]; simp)
      rw [hobs]
      refine ⟨?_, ?_, ?_, s4⟩
      · rw [s1, hv]; simp; ring
      · rw [s2, hv]; simp; omega
      · rw [s3, hv]; simp
    · have hv : h.observe v =
          { digest := h.digest, buffer := h.buffer ++ [v], sum := h.sum + v } := by
        unfold Histogram.observe
        rw [if_neg (by simpa using hm)]
      obtain ⟨s1, s2, s3, s4⟩ := ih (h.observe v) (by rw [hv]; simp; omega)
      rw [hobs]
      refine ⟨?_, ?_, ?_, s4⟩
      · rw [s1, hv]; simp; ring
      · rw [s2, hv]; simp; omega
      · rw [s3, hv]

lemma length_insertSorted (x : ℚ) : ∀ l : List ℚ, (insertSorted x l).length = l.length + 1
  | [] => rfl
  | y :: ys => by
    unfold insertSorted
    split_ifs
    · rfl
    · simp [length_insertSorted x ys]

lemma length_sortBuffer : ∀ l : List ℚ, (sortBuffer l).length = l.length
  | [] => rfl
  | x :: xs => by simp [sortBuffer, length_insertSorted, length_sortBuffer xs]

lemma get?_isSome_of_lt : ∀ (xs : List ℚ) (i : Nat), i < xs.length → (xs.get? i).isSome = true
  | [], i, h => absurd h (by simp)
  | _ :: _, 0, _ => rfl
  | _ :: xs, i + 1, h => get?_isSome_of_lt xs i (by simpa using h)

/-! ## Claim theorems -/

/-- C1: contrary to the claim that a `Shared` executor with `users = N ≥ 1`,
`iterations = I` and duration `D` completes `I ≤ completed ≤ I + N - 1`
iterations, the task built by `SharedIterations::execute` sends no outcome at
all under any interleaving: the counter is initialized to `iterations`, so
every user's first `fetch_add` already returns a prior value `≥ iterations`
and the user stops before running a single iteration. -/
theorem sharedIterations_sends_no_outcomes (iterations users : Nat)
    (sched : List (Nat × Bool)) :
    (sharedRun iterations users sched).sent = 0 := by
  have h := sharedRun_aux iterations sched (sharedInit iterations users) (le_refl _)
  simpa [sharedRun, sharedInit] using h.1

/-- C2: the runner's drain loop treats every `Err` outcome as termination:
a single `GenericError` makes `has_user_terminated` true - indistinguishably
from a `TerminationError` - so the scope is cancelled and, of two scenarios,
only the first runs, although no `TerminationError` was ever received. -/
theorem runner_aborts_on_generic_error :
    has_user_terminated [[Except.error Error.genericError]] = true ∧
    (has_user_terminated [[Except.error Error.genericError]]
      = has_user_terminated [[Except.error Error.terminationError]]) ∧
    runnerScenariosExecuted [[[Except.error Error.genericError]], [[Except.ok ()]]] = 1 ∧
    ([Except.error Error.genericError] : List UserResult).any
      (fun r => match r with
        | .error .terminationError => true
        | _ => false) = false :=
  ⟨rfl, rfl, rfl, rfl⟩

/-- C3 counterexample: a window with `pool = 1`, `max_users = 2`, `rate = 5`
and one clock-permitted start grows the pool by `rate - started = 4` users to
5, exceeding `max_users = 2`; the claimed amount
`min (rate - started) (max_users - pool)` would instead have grown it to 2. -/
theorem arrival_rate_growth_exceeds_max_users :
    runWindow 2 5 1 1 = some 5 ∧ ¬ (5 : Nat) ≤ 2 ∧ 1 + min (5 - 1) (2 - 1) = 2 :=
  ⟨rfl, by decide, rfl⟩

/-- C3 (amended): when a window achieves fewer than `rate` starts and the
pool holds fewer than `max_users` users, exactly `rate - started` users are
built (not clamped to `max_users - pool`); no growth happens once the pool
has at least `max_users` users, so the pool size after a window never exceeds
`max (pool, max_users - 1 + rate)`. -/
theorem arrival_rate_window_growth_amended (maxUsers rate pool cap : Nat) :
    (0 < pool → min rate cap < rate → pool < maxUsers →
      runWindow maxUsers rate pool cap = some (pool + (rate - min rate cap))) ∧
    (maxUsers ≤ pool → 0 < pool →
      runWindow maxUsers rate pool cap = some pool) ∧
    (∀ p, runWindow maxUsers rate pool cap = some p →
      p ≤ max pool (maxUsers - 1 + rate)) := by
  refine ⟨?_, ?_, ?_⟩
  · intro h1 h2 h3
    unfold runWindow
    rw [if_neg (fun hc => absurd hc.1 (Nat.pos_iff_ne_zero.mp h1)), if_pos ⟨h2, h3⟩]
  · intro h1 h2
    unfold runWindow
    rw [if_neg (fun hc => absurd hc.1 (Nat.pos_iff_ne_zero.mp h2)),
      if_neg (fun hc => absurd hc.2 (by omega))]
  · intro p hp
    unfold runWindow at hp
    split_ifs at hp with ha hb
    · obtain rfl := Option.some.inj hp
      have h1 : pool ≤ maxUsers - 1 := by omega
      exact le_trans (Nat.add_le_add h1 (Nat.sub_le _ _)) (le_max_right _ _)
    · obtain rfl := Option.some.inj hp
      exact le_max_left _ _

/-- C3 (amended) witness at `pool = 1`, `max_users = 2`, `rate = 5`,
`cap = 1`. -/
theorem arrival_rate_window_growth_amended_w :
    (0 : Nat) < 1 ∧ runWindow 2 5 1 1 = some (1 + (5 - min 5 1)) :=
  ⟨by decide,
    (arrival_rate_window_growth_amended 2 5 1 1).1 (by decide) (by decide) (by decide)⟩

/-- C4: a `PerUser` executor with `users = N` and `iterations = I` runs every
user's operation exactly `I` times (a for-loop per user, no deadline), one
outcome sent per iteration, so exactly `N * I` outcomes are produced. -/
theorem perUser_iteration_counts (calls : List (Nat → UserResult)) (iterations : Nat) :
    (perUserAllOutcomes calls iterations).length = calls.length * iterations ∧
    ∀ call : Nat → UserResult, (perUserDriver call iterations).length = iterations := by
  constructor
  · unfold perUserAllOutcomes
    induction calls with
    | nil => simp
    | cons c cs ih =>
      simp only [List.map_cons, List.flatten_cons, List.length_append, ih, List.length_cons]
      simp [perUserDriver]
      ring
  · intro call
    simp [perUserDriver]

/-- C5: the `RampingUser` pool never shrinks across stages; before a stage
whose target exceeds the current pool exactly `target - pool` users are built
(none otherwise), and after the last stage the pool equals
`max (pre_allocate, greatest stage target)`. -/
theorem rampingUser_pool_monotone_and_final (pre : Nat) (stages : List (Nat × Nat)) :
    List.Chain' (· ≤ ·) (rampingUserPools pre stages) ∧
    rampingUserFinal pre stages = max pre (stages.foldl (fun a s => max a s.2) 0) ∧
    (∀ pool target, pool < target →
      rampingUserBuilt pool target = target - pool ∧
        rampingUserStage pool target = pool + (target - pool)) ∧
    ∀ pool target, target ≤ pool →
      rampingUserBuilt pool target = 0 ∧ rampingUserStage pool target = pool := by
  refine ⟨chain'_rampingUserPools stages pre, rampingUserFinal_eq pre stages, ?_, ?_⟩
  · intro pool target h
    unfold rampingUserBuilt rampingUserStage
    rw [if_pos h, if_pos h]
    exact ⟨rfl, rfl⟩
  · intro pool target h
    unfold rampingUserBuilt rampingUserStage
    rw [if_neg (by omega), if_neg (by omega)]
    exact ⟨rfl, rfl⟩

/-- C5 witness at `pool = 1`, `target = 5` and at `pool = 5`, `target = 3`. -/
theorem rampingUser_pool_monotone_and_final_w :
    (1 : Nat) < 5 ∧ rampingUserBuilt 1 5 = 5 - 1 ∧ rampingUserBuilt 5 3 = 0 :=
  ⟨by decide, ((rampingUser_pool_monotone_and_final 0 []).2.2.1 1 5 (by decide)).1,
    ((rampingUser_pool_monotone_and_final 0 []).2.2.2 5 3 (by decide)).1⟩

/-- C6: `DataExecutor::new` turns a `ConstantArrivalRate` configuration into
exactly the executor built by `RampingArrivalRate::new` with the single stage
list `[(rate, duration)]` and the same `pre_allocate` and `max_users`, and the
spawned task behaves identically on every clock oracle. -/
theorem constantArrivalRate_single_stage_equiv (p m d : Nat) (r : Rate) :
    dataExecutorNew (.constantArrivalRate p r m d)
      = DataExecutor.constantArrivalRate (RampingArrivalRate.new p [(r, d)] m) ∧
    ∀ oracle, (dataExecutorNew (.constantArrivalRate p r m d)).finalPool oracle
      = (dataExecutorNew (.rampingArrivalRate p m [(r, d)])).finalPool oracle :=
  ⟨rfl, fun _ => rfl⟩

/-- C7: contrary to the claim that the buffer is merged into the t-digest
when it reaches 4096 observations, the source discards the digest returned by
`merge_unsorted` in both branches (and, with no digest present, stores the
empty `TDigest::default()`), so the digest never receives a value and every
flushed batch of 4096 observations is lost.  The rest of the claim holds:
the buffer is appended to and emptied exactly at 4096, and `get_sum` is the
exact sum of every value observed so far. -/
theorem histogram_flush_discards_merged_values :
    (∀ (h : Histogram) (v : ℚ), (h.observe v).sum = h.sum + v) ∧
    (∀ (h : Histogram) (v : ℚ), h.buffer.length + 1 < 4096 →
      (h.observe v).digest = h.digest ∧ (h.observe v).buffer = h.buffer ++ [v]) ∧
    (∀ (h : Histogram) (v : ℚ), h.buffer.length + 1 = 4096 →
      (h.observe v).digest = some (h.digest.getD []) ∧
      (h.observe v).buffer = []) ∧
    ∀ vs : List ℚ,
      (Histogram.new.observeAll vs).get_sum = vs.sum ∧
      (Histogram.new.observeAll vs).buffer.length = vs.length % 4096 ∧
      (Histogram.new.observeAll vs).digest.getD [] = [] := by
  refine ⟨?_, ?_, ?_, ?_⟩
  · intro h v
    unfold Histogram.observe
    split_ifs <;> rfl
  · intro h v hlt
    unfold Histogram.observe
    rw [if_neg (by simp; omega)]
    exact ⟨rfl, rfl⟩
  · intro h v hlen
    unfold Histogram.observe
    rw [if_pos (by simp; omega)]
    exact ⟨rfl, rfl⟩
  · intro vs
    obtain ⟨s1, s2, s3, _⟩ := observeAll_inv vs Histogram.new (by simp [Histogram.new])
    refine ⟨?_, ?_, ?_⟩
    · rw [Histogram.get_sum, s1]; simp [Histogram.new]
    · rw [s2]; simp [Histogram.new]
    · rw [s3]; simp [Histogram.new]

/-- C7 witness: flushing a full buffer of 4095 entries plus one more keeps the
digest contents unchanged (here: the absent digest becomes the stored empty
default) and empties the buffer - the 4096 values reach neither. -/
theorem histogram_flush_discards_merged_values_w :
    ({ digest := none, buffer := List.replicate 4095 1, sum := 4095 } :
        Histogram).buffer.length + 1 = 4096 ∧
    ((({ digest := none, buffer := List.replicate 4095 1, sum := 4095 } :
        Histogram).observe 1).digest
      = some (({ digest := none, buffer := List.replicate 4095 1, sum := 4095 } :
          Histogram).digest.getD []) ∧
      (({ digest := none, buffer := List.replicate 4095 1, sum := 4095 } :
        Histogram).observe 1).buffer = []) :=
  ⟨by
    show (List.replicate 4095 (1 : ℚ)).length + 1 = 4096
    rw [List.length_replicate],
    histogram_flush_discards_merged_values.2.2.1
      { digest := none, buffer := List.replicate 4095 1, sum := 4095 } 1
      (by
        show (List.replicate 4095 (1 : ℚ)).length + 1 = 4096
        rw [List.length_replicate])⟩

/-- C8: a `RampingArrivalRate` (or `ConstantArrivalRate`) executor with
`pre_allocate_users = 0` panics in the first pacing window of a first stage
whose rate count is at least 1 once the clock lets the inner loop's condition
pass: the cyclic iterator over the empty user pool yields `None` and the
`unwrap` fails, before any pool growth or error return could happen. -/
theorem arrival_rate_empty_pool_first_window_panics
    (st : RampingArrivalRateState) (r : Rate) (d cap : Nat)
    (rest : List (Rate × Nat)) (ws : List Nat) (os : List (List Nat))
    (hpre : st.preAllocate = 0) (hstages : st.stages = (r, d) :: rest)
    (hrate : 1 ≤ r.count) (hcap : 1 ≤ cap) :
    rampingArrivalRateRun st ((cap :: ws) :: os) = none := by
  have hw : runWindow st.maxUsers r.count 0 cap = none := by
    unfold runWindow
    rw [if_pos ⟨rfl, lt_min (by omega) (by omega)⟩]
  unfold rampingArrivalRateRun
  rw [hstages, hpre, List.zip_cons_cons]
  unfold runStages runStage
  rw [hw]

/-- C8 witness: `pre_allocate = 0`, one stage at rate 1 per unit for
duration 5, `max_users = 10`, with the clock admitting one start. -/
theorem arrival_rate_empty_pool_first_window_panics_w :
    rampingArrivalRateRun
      { preAllocate := 0, stages := [({ count := 1, timeUnit := 1 }, 5)], maxUsers := 10 }
      [[1]] = none :=
  arrival_rate_empty_pool_first_window_panics
    { preAllocate := 0, stages := [({ count := 1, timeUnit := 1 }, 5)], maxUsers := 10 }
    { count := 1, timeUnit := 1 } 5 1 [] [] [] rfl rfl (by decide) (by decide)

/-- C9: with no digest and an empty buffer, `Histogram::get_percentile`
indexes an empty vector and panics (`none`) - hence `get_percentiles`,
and `Metric::value` on a histogram or duration-histogram metric that has
recorded nothing, panic too; once an observation is buffered (`u < l`) or a
digest exists the percentile lookup is total. -/
theorem histogram_percentile_empty_panics :
    (∀ u l, Histogram.new.get_percentile u l = none) ∧
    (∀ h : Histogram, h.digest = none → h.buffer = [] →
      ∀ u l, h.get_percentile u l = none) ∧
    Metric.value (.histogram Histogram.new) = none ∧
    Metric.value (.duration Histogram.new) = none ∧
    (∀ (h : Histogram) (u l : Nat), h.digest = none → h.buffer ≠ [] → u < l →
      (h.get_percentile u l).isSome = true) ∧
    ∀ (h : Histogram) (dg : List ℚ) (u l : Nat), h.digest = some dg →
      (h.get_percentile u l).isSome = true := by
  have hempty : ∀ h : Histogram, h.digest = none → h.buffer = [] →
      ∀ u l, h.get_percentile u l = none := by
    intro h hd hb u l
    unfold Histogram.get_percentile
    rw [hd, hb]
    simp [sortBuffer]
  refine ⟨fun u l => hempty Histogram.new rfl rfl u l, hempty, ?_, ?_, ?_, ?_⟩
  · have h1 := hempty Histogram.new rfl rfl 1 2
    simp [Metric.value, Histogram.get_percentiles, h1]
  · have h1 := hempty Histogram.new rfl rfl 1 2
    simp [Metric.value, Histogram.get_percentiles, h1]
  · intro h u l hd hb hul
    unfold Histogram.get_percentile
    rw [hd]
    have hpos : 0 < h.buffer.length := List.length_pos.mpr hb
    have hidx : h.buffer.length * u / l < h.buffer.length := by
      rw [Nat.div_lt_iff_lt_mul (by omega)]
      exact (Nat.mul_lt_mul_left hpos).mpr hul
    exact get?_isSome_of_lt _ _ (by rw [length_sortBuffer]; exact hidx)
  · intro h dg u l hd
    unfold Histogram.get_percentile
    rw [hd]
    rfl

/-- C9 witness: the fresh histogram panics at p50, while one buffered
observation makes the lookup total. -/
theorem histogram_percentile_empty_panics_w :
    Histogram.new.get_percentile 1 2 = none ∧
    (({ digest := none, buffer := [5], sum := 5 } : Histogram).get_percentile 1 2).isSome
      = true :=
  ⟨histogram_percentile_empty_panics.1 1 2,
    histogram_percentile_empty_panics.2.2.2.2.1
      { digest := none, buffer := [5], sum := 5 } 1 2 rfl (by simp) (by decide)⟩

/-- C10: `Metric::update` with a value variant that does not match the
metric's storage type falls into the match's default arm and leaves the
metric completely unchanged, reporting nothing. -/
theorem metric_update_mismatch_is_noop (m : Metric) (v : Value)
    (h : Metric.matchesStorage m v = false) : m.update v = m := by
  cases m <;> cases v <;> simp_all [Metric.update, Metric.matchesStorage]

/-- C10 witness: a Float sent to a Counter is silently dropped. -/
theorem metric_update_mismatch_is_noop_w :
    Metric.matchesStorage (.counter 0) (.float 1) = false ∧
    Metric.update (.counter 0) (.float 1) = .counter 0 :=
  ⟨rfl, metric_update_mismatch_is_noop (.counter 0) (.float 1) rfl⟩

end Rusher
